import Mathlib

/-!
Verification of the oniguruma-parser core: the recursive-descent parser
(src/parser), the visitor-driven traverser with mutation primitives
(src/traverser), and optimizer transforms (use-shorthands,
unwrap-negation-wrappers), shallowly embedded from the TypeScript/JavaScript
sources.  Strings are modelled as lists of characters, JS exceptions as
Except, and the traverser's unbounded recursion through visitor-supplied
replacement nodes via an explicit fuel parameter returning Option.
-/

namespace Onig

/-- Strings are modelled as lists of characters. -/
abbrev Str := List Char

/-- Generates a Unicode property lookup name: lowercase, without spaces,
hyphens, or underscores (source function slug in the parser). -/
def slug (s : Str) : Str :=
  (s.filter (fun c => c ≠ '-' && c ≠ ' ' && c ≠ '_')).map Char.toLower

/-- Modelled from the spec: the POSIX class name list PosixClassNames lives in
src/utils.js, which is not part of the provided source tree.  The spec (§ 6,
glossary) describes POSIX classes as the standard bracket-expression names
such as digit and alpha; this is that standard set. -/
def PosixClassNames : List Str :=
  ["alnum".toList, "alpha".toList, "ascii".toList, "blank".toList,
   "cntrl".toList, "digit".toList, "graph".toList, "lower".toList,
   "print".toList, "punct".toList, "space".toList, "upper".toList,
   "word".toList, "xdigit".toList]

/-- A unicodePropertyMap option value: an association list from normalized
slug to canonical name (the source uses a JS Map). -/
abbrev PropMap := List (Str × Str)

/-- Map.has on the optional property map. -/
def mapHas (m : Option PropMap) (k : Str) : Bool :=
  match m with
  | none => false
  | some l => l.any (fun p => p.1 == k)

/-- Map.get on the optional property map. -/
def mapGet (m : Option PropMap) (k : Str) : Option Str :=
  match m with
  | none => none
  | some l => (l.find? (fun p => p.1 == k)).map (fun p => p.2)

/-- The RegexFlags record produced by the tokenizer (only the boolean flags
the embedded code reads; the source has the same fields). -/
structure Flags where
  ignoreCase : Bool
  dotAll : Bool
  extended : Bool
  digitIsAscii : Bool
  spaceIsAscii : Bool
  wordIsAscii : Bool
  posixIsAscii : Bool
deriving DecidableEq, Repr

/-- Flags with nothing set. -/
def noFlags : Flags := ⟨false, false, false, false, false, false, false⟩

/-- NodeCharacterClassKind from the source. -/
inductive CCKind where
  | union
  | intersection
deriving DecidableEq, Repr

/-- NodeCharacterSetKind from the source (TokenCharacterSetKind). -/
inductive CSKind where
  | any
  | digit
  | hex
  | newline
  | grapheme
  | posix
  | property
  | space
  | word
deriving DecidableEq, Repr

/-- NodeQuantifierKind from the source. -/
inductive QKind where
  | greedy
  | lazy
  | possessive
deriving DecidableEq, Repr

/-- NodeAssertionKind from the source. -/
inductive AsrtKind where
  | grapheme_boundary
  | line_end
  | line_start
  | search_start
  | string_end
  | string_end_newline
  | string_start
  | word_boundary
deriving DecidableEq, Repr

/-- NodeLookaroundAssertionKind from the source. -/
inductive LookKind where
  | lookahead
  | lookbehind
deriving DecidableEq, Repr

/-- NodeDirectiveKind from the source (the flags payload of a flag directive
is not modelled). -/
inductive DirKind where
  | keep
  | flags
deriving DecidableEq, Repr

/-- A backreference or subroutine ref: number or group name. -/
inductive Ref where
  | num (n : Nat)
  | name (s : Str)
deriving DecidableEq, Repr

/-- The quantifier max bound: a number, or none for Infinity (unbounded). -/
abbrev QMax := Option Nat

/-- The AST node union from the source parser.  Optional JS object properties
(negate and variableLength on character sets, orphan on backreferences) are
modelled as Option/Bool mirroring presence.  The flags payload of groups and
flag directives is not modelled (no claim reads it). -/
inductive Node where
  | regexN (pattern : Node) (flags : Node)
  | patternN (alternatives : List Node)
  | alternative (elements : List Node)
  | flagsN (fl : Flags)
  | character (value : Nat)
  | characterClass (kind : CCKind) (negate : Bool) (elements : List Node)
  | characterClassRange (minC : Node) (maxC : Node)
  | characterSet (kind : CSKind) (value : Option Str) (negate : Option Bool)
      (variableLength : Option Bool)
  | assertionN (kind : AsrtKind) (negate : Option Bool)
  | lookaround (kind : LookKind) (negate : Bool) (alternatives : List Node)
  | group (atomic : Bool) (alternatives : List Node)
  | capturingGroup (number : Nat) (name : Option Str) (alternatives : List Node)
  | absentFunction (alternatives : List Node)
  | backreference (ref : Ref) (orphan : Bool)
  | subroutine (ref : Ref)
  | quantifier (kind : QKind) (minQ : Nat) (maxQ : QMax) (element : Node)
  | directive (kind : DirKind)

/-- Source factory createAlternative: an Alternative with no elements. -/
def createAlternative : Node := .alternative []

/-- Source factory createPattern: one empty alternative. -/
def createPattern : Node := .patternN [createAlternative]

/-- Source factory createGroup (the optional flags payload is not modelled). -/
def createGroup (atomic : Bool) : Node := .group atomic [createAlternative]

/-- Source factory createAbsentFunction; only the repeater kind exists, and
any other kind throws, so the kind argument is omitted. -/
def createAbsentFunction : Node := .absentFunction [createAlternative]

/-- Source factory createLookaroundAssertion. -/
def createLookaroundAssertion (behind negate : Bool) : Node :=
  .lookaround (if behind then .lookbehind else .lookahead) negate [createAlternative]

/-- Source predicate isValidGroupName, the test of the group-name pattern:
first character in Alpha or Pc, remaining characters anything but a closing
parenthesis.  The Unicode Alpha and Pc classes are approximated by
Char.isAlpha and the low line, which suffices for every name appearing in a
claim. -/
def isValidGroupName (s : Str) : Bool :=
  match s with
  | [] => false
  | c :: rest => (c.isAlpha || c == '_') && rest.all (fun d => d ≠ ')')

/-- Source factory createCapturingGroup; throws when the name is invalid. -/
def createCapturingGroup (number : Nat) (name : Option Str) : Except String Node :=
  match name with
  | none => .ok (.capturingGroup number none [createAlternative])
  | some nm =>
      if isValidGroupName nm then
        .ok (.capturingGroup number (some nm) [createAlternative])
      else
        .error "Group name invalid in Oniguruma"

/-- Source factory createCharacter; code points above 0x10FFFF throw unless
useLastValid caps the value at 0x10FFFF (and above 0x13FFFF always throw). -/
def createCharacter (charCode : Nat) (useLastValid : Bool) : Except String Node :=
  if charCode > 0x10FFFF then
    if useLastValid then
      .ok (.character 0x10FFFF)
    else if charCode > 0x13FFFF then
      .error "Invalid code point out of range"
    else
      .error "Invalid code point out of range in JS"
  else
    .ok (.character charCode)

/-- Source factory createCharacterClass with its defaults. -/
def createCharacterClass (kind : CCKind) (negate : Bool) : Node :=
  .characterClass kind negate []

/-- Source factory createCharacterClassRange; descending ranges throw. -/
def createCharacterClassRange (minC maxC : Node) : Except String Node :=
  match minC, maxC with
  | .character a, .character b =>
      if b < a then .error "Character class range out of order"
      else .ok (.characterClassRange (.character a) (.character b))
  | a, b => .ok (.characterClassRange a b)

/-- Source factory createCharacterSet for the unnamed kinds: negate is kept
only for digit, hex, newline, space and word; variableLength is set for
grapheme and for non-negated newline. -/
def createCharacterSet (kind : CSKind) (negate : Bool) : Node :=
  let ng : Option Bool :=
    match kind with
    | .digit | .hex | .newline | .space | .word => some negate
    | _ => none
  let vl : Option Bool :=
    match kind with
    | .grapheme => some true
    | .newline => if negate then none else some true
    | _ => none
  .characterSet kind none ng vl

/-- Source factory createPosixClass; unknown POSIX names throw. -/
def createPosixClass (name : Str) (negate : Bool) : Except String Node :=
  if PosixClassNames.contains name then
    .ok (.characterSet .posix (some name) (some negate) none)
  else
    .error "Invalid POSIX class"

/-- Source function normalizeUnicodePropertyName is not needed by any claim;
the createUnicodeProperty embedding keeps the raw name in the branch that
would call it, which is faithful for every input whose name is already in
canonical form. -/
def normalizeUnicodePropertyNameApprox (name : Str) : Str := name

/-- Source factory createUnicodeProperty: look the slug up in the map; fall
back to normalization or the raw name; with a map present and validation not
skipped an unknown name throws. -/
def createUnicodeProperty (name : Str) (negate : Bool)
    (normalizeUnknownPropertyNames skipPropertyNameValidation : Bool)
    (unicodePropertyMap : Option PropMap) : Except String Node :=
  match mapGet unicodePropertyMap (slug name) with
  | some canonical => .ok (.characterSet .property (some canonical) (some negate) none)
  | none =>
      if normalizeUnknownPropertyNames then
        .ok (.characterSet .property (some (normalizeUnicodePropertyNameApprox name))
          (some negate) none)
      else if unicodePropertyMap.isSome && !skipPropertyNameValidation then
        .error "Invalid Unicode property"
      else
        .ok (.characterSet .property (some name) (some negate) none)

/-- Source factory createQuantifier: when max is a number below min the
quantifier becomes possessive with min and max swapped (Oniguruma's
reversed-bounds rule); the unbounded max (JS Infinity) is never below min. -/
def createQuantifier (element : Node) (minQ : Nat) (maxQ : QMax) (kind : QKind) : Node :=
  match maxQ with
  | some m =>
      if m < minQ then .quantifier .possessive m (some minQ) element
      else .quantifier kind minQ (some m) element
  | none => .quantifier kind minQ none element

/-- Source factory createRegex. -/
def createRegex (pattern flags : Node) : Node := .regexN pattern flags

/-- Source factory createFlags. -/
def createFlags (fl : Flags) : Node := .flagsN fl

/-- Source factory createBackreference. -/
def createBackreference (ref : Ref) (orphan : Bool) : Node := .backreference ref orphan

/-- Source factory createSubroutine. -/
def createSubroutine (ref : Ref) : Node := .subroutine ref

/-! ### Optimizer transform: use-shorthands (CharacterSet visitor) -/

/-- The CharacterSet callback of the useShorthands transform
(src/optimizer/transforms/use-shorthands.js): the rewrite it performs on a
CharacterSet node, given the flags on the AST root; none when the callback
does not call replaceWith.  Property names Decimal_Number/Nd and
White_Space/WSpace are gated on the ASCII flags; the POSIX forms digit,
xdigit and space are not; cntrl is gated on posixIsAscii. -/
def useShorthandsCharacterSet (rootFlags : Flags) (node : Node) : Option Node :=
  match node with
  | .characterSet kind value negate _ =>
      let ng := negate.getD false
      if (kind == .property &&
            (value == some "Decimal_Number".toList || value == some "Nd".toList) &&
            !rootFlags.digitIsAscii && !rootFlags.posixIsAscii) ||
         (kind == .posix && value == some "digit".toList) then
        some (createCharacterSet .digit ng)
      else if (kind == .property &&
            (value == some "ASCII_Hex_Digit".toList || value == some "AHex".toList)) ||
         (kind == .posix && value == some "xdigit".toList) then
        some (createCharacterSet .hex ng)
      else if (kind == .property &&
            (value == some "White_Space".toList || value == some "WSpace".toList) &&
            !rootFlags.spaceIsAscii && !rootFlags.posixIsAscii) ||
         (kind == .posix && value == some "space".toList) then
        some (createCharacterSet .space ng)
      else if kind == .posix && value == some "cntrl".toList &&
          !rootFlags.posixIsAscii then
        (createUnicodeProperty "Cc".toList ng false false none).toOption
      else
        none
  | _ => none

/-! ### Optimizer transform: unwrap-negation-wrappers -/

/-- The CharacterClass callback of the unwrapNegationWrappers transform
(src/optimizer/transforms/unwrap-negation-wrappers): the replacement it
passes to replaceWith for a node with the given parent, or none when the
callback returns without replacing.  A negated single-element union class
around a character set flips the set's negate; around the newline character,
outside a class, it becomes a negated newline set unless the parent is a
non-lazy quantifier (an Oniguruma bug trigger). -/
def unwrapNegationWrappersCC (parent node : Node) : Option Node :=
  match node with
  | .characterClass kind negate elements =>
      if !negate || kind != .union || elements.length != 1 then none
      else
        match elements.head? with
        | some (.characterSet k v ng vl) =>
            some (.characterSet k v (some (!(ng.getD false))) vl)
        | some (.character 10) =>
            match parent with
            | .characterClass _ _ _ => none
            | .quantifier qk _ _ _ =>
                if qk != .lazy then none
                else some (createCharacterSet .newline true)
            | _ => some (createCharacterSet .newline true)
        | _ => none
  | _ => none

/-! ### Parser

The parser consumes the tokenizer's token stream (the tokenizer itself lives
outside the embedded sources; tokens are the parser's input interface).  The
token subset modelled is the one exercised by the claims: characters,
alternators, group open/close, quantifiers and character sets.  The
character-class, backreference, subroutine and directive token kinds, and
the whole-pattern backref/subroutine validation that only concerns them, are
outside the embedding's scope. -/

/-- The payload of a GroupOpen token (TokenGroupKinds plus the token's
negate, number and name attributes). -/
inductive GroupKind where
  | absentRepeater
  | atomic
  | capturing (number : Nat) (name : Option Str)
  | groupKind
  | lookahead (negate : Bool)
  | lookbehind (negate : Bool)
deriving DecidableEq, Repr

/-- The modelled subset of the tokenizer's token stream. -/
inductive Token where
  | character (value : Nat)
  | alternator
  | groupOpen (kind : GroupKind)
  | groupClose
  | quantifier (kind : QKind) (minQ : Nat) (maxQ : QMax)
  | characterSet (kind : CSKind) (value : Option Str) (negate : Bool)
deriving DecidableEq, Repr

/-- The parser options read by the embedded code paths. -/
structure ParserOpts where
  skipLookbehindValidation : Bool
  skipPropertyNameValidation : Bool
  normalizeUnknownPropertyNames : Bool
  unicodePropertyMap : Option PropMap

/-- Options with every switch off and no property map. -/
def defaultOpts : ParserOpts := ⟨false, false, false, none⟩

/-- The per-walk State record of the source parser (isCheckingRangeEnd is
only used inside character classes, which are outside the modelled token
subset). -/
structure WalkState where
  isInAbsentFunction : Bool
  isInLookbehind : Bool
  isInNegLookbehind : Bool
deriving DecidableEq, Repr

/-- The state for top-level walk calls. -/
def topState : WalkState := ⟨false, false, false⟩

/-- Source function parseCharacterSet: a property token whose slug is a POSIX
class name not shadowed by the provided unicodePropertyMap becomes a posix
set with the slug as value; other property tokens go through
createUnicodeProperty; posix tokens through createPosixClass. -/
def parseCharacterSet (opts : ParserOpts) (kind : CSKind) (value : Option Str)
    (negate : Bool) : Except String Node :=
  match kind, value with
  | .property, some v =>
      let normalized := slug v
      if PosixClassNames.contains normalized && !mapHas opts.unicodePropertyMap normalized then
        createPosixClass normalized negate
      else
        createUnicodeProperty v negate opts.normalizeUnknownPropertyNames
          opts.skipPropertyNameValidation opts.unicodePropertyMap
  | .property, none => .error "Unexpected property token without a name"
  | .posix, some v => createPosixClass v negate
  | .posix, none => .error "Unexpected POSIX token without a name"
  | k, _ => .ok (createCharacterSet k negate)

/-- Source function createByGroupKind: dispatch a GroupOpen token to the node
factory for its kind. -/
def createByGroupKind (gk : GroupKind) : Except String Node :=
  match gk with
  | .absentRepeater => .ok createAbsentFunction
  | .atomic => .ok (createGroup true)
  | .capturing number name => createCapturingGroup number name
  | .groupKind => .ok (createGroup false)
  | .lookahead ng => .ok (createLookaroundAssertion false ng)
  | .lookbehind ng => .ok (createLookaroundAssertion true ng)

/-- Replace a container node's alternatives list: the functional counterpart
of the source's in-place pushes onto node.alternatives. -/
def Node.setAlternatives (n : Node) (alts : List Node) : Node :=
  match n with
  | .group a _ => .group a alts
  | .capturingGroup num nm _ => .capturingGroup num nm alts
  | .absentFunction _ => .absentFunction alts
  | .lookaround k ng _ => .lookaround k ng alts
  | .patternN _ => .patternN alts
  | m => m

/-- Source predicate isLookahead. -/
def isLookaheadN (n : Node) : Bool :=
  match n with
  | .lookaround .lookahead _ _ => true
  | _ => false

/-- Source predicate isLookbehind. -/
def isLookbehindN (n : Node) : Bool :=
  match n with
  | .lookaround .lookbehind _ _ => true
  | _ => false

/-- A negated lookbehind node. -/
def isNegLookbehindN (n : Node) : Bool :=
  match n with
  | .lookaround .lookbehind ng _ => ng
  | _ => false

/-- A capturing-group node. -/
def isCapturingGroupN (n : Node) : Bool :=
  match n with
  | .capturingGroup _ _ _ => true
  | _ => false

/-- The types the source's parseQuantifier rejects as quantified element
(Assertion, Directive, LookaroundAssertion). -/
def isNotQuantifiable (n : Node) : Bool :=
  match n with
  | .assertionN _ _ => true
  | .directive _ => true
  | .lookaround _ _ _ => true
  | _ => false

/-- The centralized lookbehind-content check of the source parseGroupOpen
loop, applied to each child appended inside a lookbehind: inside a negative
lookbehind, lookaheads and capturing groups are forbidden; inside a positive
one, lookaheads and negative lookbehinds. -/
def lookbehindChildAllowed (inNeg : Bool) (child : Node) : Bool :=
  if inNeg then
    !(isLookaheadN child || isCapturingGroupN child)
  else
    !(isLookaheadN child || (isLookbehindN child && isNegLookbehindN child))

mutual

/-- One step of the source's walk for a token that yields an alternative
element: given the current alternative's elements, return the updated
elements and the remaining tokens.  A Quantifier token pops the previous
element and wraps it (source parseQuantifier); an Alternator never reaches
here (both enclosing loops consume it) and a stray GroupClose hits the
switch's default throw. -/
def walkOne (fuel : Nat) (opts : ParserOpts) (st : WalkState) (tok : Token)
    (rest : List Token) (elems : List Node) : Except String (List Node × List Token) :=
  match fuel with
  | 0 => .error "out of fuel"
  | f + 1 =>
      match tok with
      | .character v => do
          let n ← createCharacter v false
          .ok (elems ++ [n], rest)
      | .characterSet k val ng => do
          let n ← parseCharacterSet opts k val ng
          .ok (elems ++ [n], rest)
      | .quantifier k mn mx =>
          match elems.getLast? with
          | none => .error "Quantifier requires a repeatable token"
          | some q =>
              if isNotQuantifiable q then .error "Quantifier requires a repeatable token"
              else .ok (elems.dropLast ++ [createQuantifier q mn mx k], rest)
      | .groupOpen gk => do
          let r ← parseGroupOpen f opts st gk rest
          .ok (elems ++ [r.1], r.2)
      | .alternator => .error "Unexpected alternator"
      | .groupClose => .error "Unexpected token type GroupClose"

/-- Source function parseGroupOpen: build the node for the group kind, reject
nested absent functions, then parse the group's alternatives up to the
closing parenthesis, threading the lookbehind state. -/
def parseGroupOpen (fuel : Nat) (opts : ParserOpts) (st : WalkState)
    (gk : GroupKind) (tokens : List Token) : Except String (Node × List Token) :=
  match fuel with
  | 0 => .error "out of fuel"
  | f + 1 => do
      let node0 ← createByGroupKind gk
      let isThisAbsent :=
        match node0 with
        | .absentFunction _ => true
        | _ => false
      let isThisLB := isLookbehindN node0
      let isThisNegLB := isThisLB && isNegLookbehindN node0
      if isThisAbsent && st.isInAbsentFunction then
        .error "Nested absent function not supported by Oniguruma"
      else
        let stInner : WalkState :=
          ⟨st.isInAbsentFunction || isThisAbsent,
           st.isInLookbehind || isThisLB,
           st.isInNegLookbehind || isThisNegLB⟩
        let r ← groupAlts f opts st stInner isThisLB isThisNegLB [] [] tokens
        .ok (node0.setAlternatives r.1, r.2)

/-- The body loop of parseGroupOpen: finished alternatives so far, the
current alternative's elements, the remaining tokens.  An Alternator closes
the current alternative; GroupClose ends the group; any other token is
walked and the appended child is put through the lookbehind-content check
when the group is in (or is) a lookbehind. -/
def groupAlts (fuel : Nat) (opts : ParserOpts) (st stInner : WalkState)
    (isThisLB isThisNegLB : Bool) (finished cur : List Node)
    (tokens : List Token) : Except String (List Node × List Token) :=
  match fuel with
  | 0 => .error "out of fuel"
  | f + 1 =>
      match tokens with
      | [] => .error "Unclosed group"
      | .groupClose :: rest => .ok (finished ++ [Node.alternative cur], rest)
      | .alternator :: rest =>
          groupAlts f opts st stInner isThisLB isThisNegLB
            (finished ++ [Node.alternative cur]) [] rest
      | tok :: rest => do
          let r ← walkOne f opts stInner tok rest cur
          if (isThisLB || st.isInLookbehind) && !opts.skipLookbehindValidation then
            match r.1.getLast? with
            | some child =>
                if lookbehindChildAllowed (isThisNegLB || st.isInNegLookbehind) child then
                  groupAlts f opts st stInner isThisLB isThisNegLB finished r.1 r.2
                else
                  .error "Lookbehind includes a pattern not allowed by Oniguruma"
            | none => groupAlts f opts st stInner isThisLB isThisNegLB finished r.1 r.2
          else
            groupAlts f opts st stInner isThisLB isThisNegLB finished r.1 r.2

/-- The source parse function's top-level while loop over the token stream:
an Alternative node returned by walk starts a new top alternative, any other
node is appended to the current one. -/
def topAlts (fuel : Nat) (opts : ParserOpts) (finished cur : List Node)
    (tokens : List Token) : Except String (List Node) :=
  match fuel with
  | 0 => .error "out of fuel"
  | f + 1 =>
      match tokens with
      | [] => .ok (finished ++ [Node.alternative cur])
      | .alternator :: rest => topAlts f opts (finished ++ [Node.alternative cur]) [] rest
      | tok :: rest => do
          let r ← walkOne f opts topState tok rest cur
          topAlts f opts finished r.1 r.2

end

/-- Source function parse, on an already-tokenized stream: build the Regex
root whose pattern holds the top-level alternatives (the backref/subroutine
whole-pattern validation concerns token kinds outside the modelled subset). -/
def parse (fuel : Nat) (opts : ParserOpts) (tokens : List Token)
    (flags : Flags) : Except String Node :=
  match topAlts fuel opts [] [] tokens with
  | .error e => .error e
  | .ok alts => .ok (createRegex (Node.setAlternatives createPattern alts) (createFlags flags))

/-! ### Traverser

Embedding of src/traverser (traverse, traverseArray, traverseNode).  A
visitor is modelled by the single observable effect a callback can have on
the engine: the mutation primitive it invokes while visiting a node at a
given key (none, skip, remove, replaceWith, replaceWithMultiple), decided
from the path's node and key exactly as a JS callback would.  The engine's
callback dispatch order and cursor arithmetic are taken from the source;
the four callback slots (wildcard and type-specific enter and exit) are
recorded as trace events in the order the source invokes them.  remove in a
slot (non-container) position throws in the source and yields none here, as
does fuel exhaustion. -/

/-- The mutation primitive invoked by a visitor's enter callbacks during one
visit (replaceWithMultiple is the primitive described by the spec § 4.4; the
traverser source in the tree predates it, so its branch below is modelled
from the spec). -/
inductive Action where
  | doNothing
  | skip
  | remove
  | replaceWith (m : Node)
  | replaceWithMultiple (ns : List Node) (traverse : Bool)

/-- A visitor: the action its enter callbacks perform for the visited node
at the given container index (none for slot positions). -/
abbrev Visitor := Node → Option Nat → Action

/-- Callback invocations, in engine order: wildcard enter, type enter,
wildcard exit, type exit; the payload is the path's node. -/
inductive Event where
  | enterAll (n : Node)
  | enterThis (n : Node)
  | exitAll (n : Node)
  | exitThis (n : Node)

/-- What a finished visit asks its enclosing container to do at the current
index: store the (possibly replaced) node back, erase it (remove), or
splice in a list (replaceWithMultiple). -/
inductive CEdit where
  | store
  | erase
  | splice (ns : List Node)

/-- Result of traverseNode: the trace of callback events, the final current
node, the keyShift handed back to the enclosing loop, and the container
edit. -/
structure NRes where
  trace : List Event
  node : Node
  keyShift : Int
  edit : CEdit

/-- Result of an array traversal: the (node, index) pairs the loop visited,
the concatenated traces, and the final array. -/
structure ARes where
  visits : List (Node × Nat)
  trace : List Event
  arr : List Node

/-- Apply a finished visit's container edit at the current index: the
in-place set, the remove splice, or the replaceWithMultiple splice. -/
def applyEdit (arr : List Node) (i : Nat) (r : NRes) : List Node :=
  match r.edit with
  | .store => arr.set i r.node
  | .erase => arr.eraseIdx i
  | .splice ns => arr.take i ++ ns ++ arr.drop (i + 1)

/-- The source loop's cursor update: i = Math.max(-1, i + keyShift) followed
by the i++ of the for loop. -/
def nextIndex (i : Nat) (shift : Int) : Nat :=
  (max (-1 : Int) ((i : Int) + shift) + 1).toNat

mutual

/-- Source traverseNode: fire wildcard-enter and type-enter, apply the
visitor's primitive, walk the current node's children unless skipping was
requested (remove implies skip; replaceWith rebinds the current node first,
so the walk descends into the replacement's children), then fire
wildcard-exit and type-exit.  The replaceWithMultiple branch is modelled
from the spec (§ 4.4): splice the nodes in, shift the cursor past them, and
when traverse is set walk each inserted node with the active visitor
first. -/
def traverseNode (fuel : Nat) (vis : Visitor) (n : Node) (key : Option Nat) :
    Option NRes :=
  match fuel with
  | 0 => none
  | f + 1 =>
      let enters := [Event.enterAll n, Event.enterThis n]
      let exits := [Event.exitAll n, Event.exitThis n]
      match vis n key with
      | .remove =>
          if key.isSome then some ⟨enters ++ exits, n, -1, .erase⟩ else none
      | .skip => some ⟨enters ++ exits, n, 0, .store⟩
      | .doNothing =>
          match walkChildren f vis n with
          | none => none
          | some k => some ⟨enters ++ k.1 ++ exits, k.2, 0, .store⟩
      | .replaceWith m =>
          match walkChildren f vis m with
          | none => none
          | some k => some ⟨enters ++ k.1 ++ exits, k.2, 0, .store⟩
      | .replaceWithMultiple ns tr =>
          if key.isSome then
            if tr then
              match walkNodes f vis ns with
              | none => none
              | some w =>
                  some ⟨enters ++ w.1 ++ exits, n, (ns.length : Int) - 1, .splice w.2⟩
            else
              some ⟨enters ++ exits, n, (ns.length : Int) - 1, .splice ns⟩
          else none

/-- The child walk of source traverseNode's switch: fixed child order per
node type; slot children (pattern, flags, min, max, element) are rebuilt
from the returned node, array children go through the array loop. -/
def walkChildren (fuel : Nat) (vis : Visitor) (n : Node) :
    Option (List Event × Node) :=
  match fuel with
  | 0 => none
  | f + 1 =>
      match n with
      | .regexN p fl =>
          match traverseNode f vis p none with
          | none => none
          | some r1 =>
              match traverseNode f vis fl none with
              | none => none
              | some r2 => some (r1.trace ++ r2.trace, .regexN r1.node r2.node)
      | .alternative es =>
          match traverseArr f vis es 0 with
          | none => none
          | some a => some (a.trace, .alternative a.arr)
      | .characterClass k ng es =>
          match traverseArr f vis es 0 with
          | none => none
          | some a => some (a.trace, .characterClass k ng a.arr)
      | .patternN alts =>
          match traverseArr f vis alts 0 with
          | none => none
          | some a => some (a.trace, .patternN a.arr)
      | .group at_ alts =>
          match traverseArr f vis alts 0 with
          | none => none
          | some a => some (a.trace, .group at_ a.arr)
      | .capturingGroup num nm alts =>
          match traverseArr f vis alts 0 with
          | none => none
          | some a => some (a.trace, .capturingGroup num nm a.arr)
      | .absentFunction alts =>
          match traverseArr f vis alts 0 with
          | none => none
          | some a => some (a.trace, .absentFunction a.arr)
      | .lookaround k ng alts =>
          match traverseArr f vis alts 0 with
          | none => none
          | some a => some (a.trace, .lookaround k ng a.arr)
      | .characterClassRange mn mx =>
          match traverseNode f vis mn none with
          | none => none
          | some r1 =>
              match traverseNode f vis mx none with
              | none => none
              | some r2 => some (r1.trace ++ r2.trace, .characterClassRange r1.node r2.node)
      | .quantifier k mn mx e =>
          match traverseNode f vis e none with
          | none => none
          | some r => some (r.trace, .quantifier k mn mx r.node)
      | m => some ([], m)

/-- Source traverseArray: a cursor loop; after each visit the cursor becomes
max(-1, i + keyShift) + 1 and the container reflects the visit's edit. -/
def traverseArr (fuel : Nat) (vis : Visitor) (arr : List Node) (i : Nat) :
    Option ARes :=
  match fuel with
  | 0 => none
  | f + 1 =>
      if h : i < arr.length then
        match traverseNode f vis (arr.get ⟨i, h⟩) (some i) with
        | none => none
        | some r =>
            match traverseArr f vis (applyEdit arr i r) (nextIndex i r.keyShift) with
            | none => none
            | some rest =>
                some ⟨(arr.get ⟨i, h⟩, i) :: rest.visits, r.trace ++ rest.trace, rest.arr⟩
      else
        some ⟨[], [], arr⟩

/-- Modelled from the spec: the walk of the nodes inserted by
replaceWithMultiple with traverse set — each inserted node receives full
visitor dispatch; its own edit is folded back into the inserted slice. -/
def walkNodes (fuel : Nat) (vis : Visitor) (ns : List Node) :
    Option (List Event × List Node) :=
  match fuel with
  | 0 => none
  | f + 1 =>
      match ns with
      | [] => some ([], [])
      | m :: rest =>
          match traverseNode f vis m none with
          | none => none
          | some r =>
              match walkNodes f vis rest with
              | none => none
              | some tail =>
                  let here :=
                    match r.edit with
                    | .erase => []
                    | .splice xs => xs
                    | .store => [r.node]
                  some (r.trace ++ tail.1, here ++ tail.2)

end

/-! ### Theorems -/

/-- Modelled from the spec: the tokenizer (absent from the source tree)
turns the pattern a{3,1} into a Character token for the letter a and a
greedy interval Quantifier token with min 3 and max 1 (spec § 8,
scenario 8). -/
def tokensA31 : List Token := [.character 97, .quantifier .greedy 3 (some 1)]

/-- The token stream of a lookbehind with the given sign directly containing
the given group kind: outer open, inner open, inner close, outer close. -/
def lbTokens (outerNeg : Bool) (inner : GroupKind) : List Token :=
  [.groupOpen (.lookbehind outerNeg), .groupOpen inner, .groupClose, .groupClose]

/-- The token stream of a negative lookbehind containing a plain group that
contains a lookahead (nesting depth two). -/
def lbDeepTokens : List Token :=
  [.groupOpen (.lookbehind true), .groupOpen .groupKind,
   .groupOpen (.lookahead false), .groupClose, .groupClose, .groupClose]

/-- Parser options with only skipLookbehindValidation set. -/
def skipLBOpts : ParserOpts := ⟨true, false, false, none⟩

/-- Success test for Except. -/
def exceptIsOk {ε α : Type} (e : Except ε α) : Bool :=
  match e with
  | .ok _ => true
  | .error _ => false

/-- A quantifier node whose kind is not lazy. -/
def isNonLazyQuantifier (n : Node) : Bool :=
  match n with
  | .quantifier k _ _ _ => k != .lazy
  | _ => false

/-- A character-class node. -/
def isCharacterClassN (n : Node) : Bool :=
  match n with
  | .characterClass _ _ _ => true
  | _ => false

/-- Every alternative-container node (Pattern, Group, CapturingGroup,
LookaroundAssertion, AbsentFunction) in the tree has a nonempty alternatives
list. -/
def altContainersOk : Node → Bool
  | .regexN p f => altContainersOk p && altContainersOk f
  | .patternN alts => !alts.isEmpty && goList alts
  | .alternative es => goList es
  | .characterClass _ _ es => goList es
  | .characterClassRange a b => altContainersOk a && altContainersOk b
  | .quantifier _ _ _ e => altContainersOk e
  | .group _ alts => !alts.isEmpty && goList alts
  | .capturingGroup _ _ alts => !alts.isEmpty && goList alts
  | .absentFunction alts => !alts.isEmpty && goList alts
  | .lookaround _ _ alts => !alts.isEmpty && goList alts
  | _ => true
where goList : List Node → Bool
  | [] => true
  | x :: xs => altContainersOk x && goList xs

/-- The nodes of a list paired with their container indices, starting at j. -/
def enumFrom (j : Nat) : List Node → List (Node × Nat)
  | [] => []
  | x :: xs => (x, j) :: enumFrom (j + 1) xs

/-- A visitor that does nothing anywhere. -/
def visNone : Visitor := fun _ _ => Action.doNothing

/-- The replacement group used in the C3 scenario: a group holding one
alternative with the character b. -/
def nC3g : Node := .group false [.alternative [.character 98]]

/-- The C3 visitor: replace the character a with the group when entering
it, touch nothing else. -/
def visC3 : Visitor := fun n _ =>
  match n with
  | .character 97 => Action.replaceWith nC3g
  | _ => Action.doNothing

/-- The C1 scenario array: a character, a group with a child, a character. -/
def nC1g : Node := .group false [.alternative [.character 2]]

/-- The C1 scenario array. -/
def xsC1 : List Node := [.character 1, nC1g, .character 3]

/-- The C1 visitor: remove the group on enter, touch nothing else. -/
def visC1 : Visitor := fun n _ =>
  match n with
  | .group _ _ => Action.remove
  | _ => Action.doNothing

/-- The result of the concrete C1 traversal. -/
def resC1 : ARes := (traverseArr 9 visC1 xsC1 0).getD ⟨[], [], []⟩

/-- The result of the concrete C1 visit of the removed node. -/
def resC1n : NRes := (traverseNode 9 visC1 nC1g (some 1)).getD ⟨[], .character 0, 0, .store⟩

/-- The C4 scenario array: the marker character is replaced by two inserted
characters. -/
def xsC4 : List Node := [.character 1, .character 99, .character 3]

/-- The C4 visitor: replaceWithMultiple with traverse set on the marker. -/
def visC4 : Visitor := fun n _ =>
  match n with
  | .character 99 => Action.replaceWithMultiple [.character 7, .character 8] true
  | _ => Action.doNothing

/-- The result of the concrete C4 traversal. -/
def resC4 : ARes := (traverseArr 9 visC4 xsC4 0).getD ⟨[], [], []⟩

/-- The result of the concrete C4 visit of the replaced node. -/
def resC4n : NRes :=
  (traverseNode 9 visC4 (.character 99) (some 1)).getD ⟨[], .character 0, 0, .store⟩

/-- C5: a quantifier token with max below min attached to a quantifiable
element yields a possessive Quantifier node with the bounds swapped; in
particular a{3,1} parses as a possessive quantifier with min 1 and max 3. -/
theorem c5_reversed_bounds_swap_to_possessive :
    (∀ (e : Node) (mn m : Nat) (kd : QKind), m < mn →
      createQuantifier e mn (some m) kd = Node.quantifier .possessive m (some mn) e) ∧
    parse 20 defaultOpts tokensA31 noFlags =
      .ok (Node.regexN
        (.patternN [.alternative [.quantifier .possessive 1 (some 3) (.character 97)]])
        (.flagsN noFlags)) := by
  constructor
  · intro e mn m kd h
    simp [createQuantifier, h]
  · rfl

/-- Witness for C5 at the concrete bounds 3 and 1. -/
theorem c5_witness : 1 < 3 ∧
    createQuantifier (Node.character 97) 3 (some 1) QKind.greedy =
      Node.quantifier .possessive 1 (some 3) (.character 97) :=
  ⟨by decide, c5_reversed_bounds_swap_to_possessive.1 (Node.character 97) 3 1 .greedy (by decide)⟩

/-- C6: each of the four forbidden (outer, inner) lookaround pairs — and a
lookahead nested two levels inside a negative lookbehind — makes parse
throw, while the same streams parse successfully when
skipLookbehindValidation is set. -/
theorem c6_lookbehind_contents_rejected :
    exceptIsOk (parse 20 defaultOpts (lbTokens false (.lookahead false)) noFlags) = false ∧
    exceptIsOk (parse 20 skipLBOpts (lbTokens false (.lookahead false)) noFlags) = true ∧
    exceptIsOk (parse 20 defaultOpts (lbTokens false (.lookbehind true)) noFlags) = false ∧
    exceptIsOk (parse 20 skipLBOpts (lbTokens false (.lookbehind true)) noFlags) = true ∧
    exceptIsOk (parse 20 defaultOpts (lbTokens true (.lookahead false)) noFlags) = false ∧
    exceptIsOk (parse 20 skipLBOpts (lbTokens true (.lookahead false)) noFlags) = true ∧
    exceptIsOk (parse 20 defaultOpts (lbTokens true (.capturing 1 none)) noFlags) = false ∧
    exceptIsOk (parse 20 skipLBOpts (lbTokens true (.capturing 1 none)) noFlags) = true ∧
    exceptIsOk (parse 20 defaultOpts lbDeepTokens noFlags) = false ∧
    exceptIsOk (parse 20 skipLBOpts lbDeepTokens noFlags) = true :=
  ⟨rfl, rfl, rfl, rfl, rfl, rfl, rfl, rfl, rfl, rfl⟩

/-- C7: use-shorthands turns the property forms Decimal_Number and Nd into
the digit shorthand exactly when neither digitIsAscii nor posixIsAscii is
set on the root flags, and turns the POSIX digit form into it under any
flags; the set's negation is carried over. -/
theorem c7_use_shorthands_digit_gating : ∀ (fl : Flags) (ng : Bool),
    useShorthandsCharacterSet fl
        (.characterSet .property (some "Decimal_Number".toList) (some ng) none) =
      (if !fl.digitIsAscii && !fl.posixIsAscii then some (createCharacterSet .digit ng)
       else none) ∧
    useShorthandsCharacterSet fl
        (.characterSet .property (some "Nd".toList) (some ng) none) =
      (if !fl.digitIsAscii && !fl.posixIsAscii then some (createCharacterSet .digit ng)
       else none) ∧
    useShorthandsCharacterSet fl
        (.characterSet .posix (some "digit".toList) (some ng) none) =
      some (createCharacterSet .digit ng) := by
  intro fl ng
  obtain ⟨a, b, c, d, e, f, g⟩ := fl
  cases d <;> cases e <;> cases g <;> cases ng <;> exact ⟨rfl, rfl, rfl⟩

/-- C8: unwrap-negation-wrappers rewrites a negated single-element union
class holding the newline character to a negated newline set whenever the
parent is not a character class (non-class context) and not a non-lazy
quantifier; under a greedy or possessive quantifier, and inside a class, it
leaves the node alone. -/
theorem c8_unwrap_negated_newline : ∀ (parent : Node),
    unwrapNegationWrappersCC parent (.characterClass .union true [.character 10]) =
      (if isCharacterClassN parent || isNonLazyQuantifier parent then none
       else some (createCharacterSet .newline true)) := by
  intro parent
  cases parent with
  | quantifier k mn mx e => cases k <;> rfl
  | _ => rfl

/-- C9: a property token whose slugged name is a POSIX class name not
present in the provided unicodePropertyMap parses to a posix CharacterSet
carrying the slug, for any options; in particular the property form of
digit parses to the same node as the POSIX form. -/
theorem c9_property_posix_fallback :
    (∀ (opts : ParserOpts) (v : Str) (ng : Bool),
      PosixClassNames.contains (slug v) = true →
      mapHas opts.unicodePropertyMap (slug v) = false →
      parseCharacterSet opts .property (some v) ng =
        .ok (.characterSet .posix (some (slug v)) (some ng) none)) ∧
    parseCharacterSet defaultOpts .property (some "digit".toList) false =
      parseCharacterSet defaultOpts .posix (some "digit".toList) false := by
  constructor
  · intro opts v ng h1 h2
    have h3 : slug v ∈ PosixClassNames := by simpa using h1
    simp [parseCharacterSet, h1, h2, h3, createPosixClass]
  · rfl

theorem goList_eq_all (xs : List Node) :
    altContainersOk.goList xs = xs.all altContainersOk := by
  induction xs with
  | nil => rfl
  | cons x t ih => simp [altContainersOk.goList, ih]

theorem ok_createCharacter (v : Nat) (b : Bool) (n : Node)
    (h : createCharacter v b = .ok n) : altContainersOk n = true := by
  unfold createCharacter at h
  repeat' split at h
  all_goals first
  | exact Except.noConfusion h
  | (cases h; rfl)

theorem ok_createPosixClass (v : Str) (ng : Bool) (n : Node)
    (h : createPosixClass v ng = .ok n) : altContainersOk n = true := by
  unfold createPosixClass at h
  split at h
  · cases h; rfl
  · exact Except.noConfusion h

theorem ok_createUnicodeProperty (v : Str) (ng nm sk : Bool) (m : Option PropMap)
    (n : Node) (h : createUnicodeProperty v ng nm sk m = .ok n) :
    altContainersOk n = true := by
  unfold createUnicodeProperty at h
  split at h
  · cases h; rfl
  · split at h
    · cases h; rfl
    · split at h
      · exact Except.noConfusion h
      · cases h; rfl

theorem ok_createCharacterSet (k : CSKind) (ng : Bool) :
    altContainersOk (createCharacterSet k ng) = true := by
  unfold createCharacterSet
  cases k <;> rfl

theorem ok_parseCharacterSet (opts : ParserOpts) (k : CSKind) (val : Option Str)
    (ng : Bool) (n : Node) (h : parseCharacterSet opts k val ng = .ok n) :
    altContainersOk n = true := by
  unfold parseCharacterSet at h
  split at h
  · simp only [] at h
    split at h
    · exact ok_createPosixClass _ _ _ h
    · exact ok_createUnicodeProperty _ _ _ _ _ _ h
  · exact Except.noConfusion h
  · exact ok_createPosixClass _ _ _ h
  · exact Except.noConfusion h
  · cases h; exact ok_createCharacterSet _ _

theorem ok_createQuantifier (q : Node) (mn : Nat) (mx : QMax) (k : QKind) :
    altContainersOk (createQuantifier q mn mx k) = altContainersOk q := by
  unfold createQuantifier
  repeat' split
  all_goals rfl

theorem ok_setAlternatives (gk : GroupKind) (node0 : Node)
    (h : createByGroupKind gk = .ok node0) (alts : List Node)
    (hne : alts ≠ []) (hok : altContainersOk.goList alts = true) :
    altContainersOk (node0.setAlternatives alts) = true := by
  unfold createByGroupKind createCapturingGroup at h
  have hne2 : alts.isEmpty = false := by
    cases alts with
    | nil => exact absurd rfl hne
    | cons a t => rfl
  repeat' split at h
  all_goals first
  | exact Except.noConfusion h
  | (cases h; simp [Node.setAlternatives, altContainersOk, createGroup,
      createAbsentFunction, createLookaroundAssertion, hne2, hok])

theorem goList_append (xs ys : List Node) :
    altContainersOk.goList (xs ++ ys) =
      (altContainersOk.goList xs && altContainersOk.goList ys) := by
  simp [goList_eq_all]

/-- The parser preserves the nonempty-alternatives invariant: one induction
on fuel covering the four mutually recursive parse functions. -/
theorem parseInvariant : ∀ fuel : Nat,
    (∀ opts st tok rest elems out, altContainersOk.goList elems = true →
      walkOne fuel opts st tok rest elems = .ok out →
      altContainersOk.goList out.1 = true) ∧
    (∀ opts st gk toks out, parseGroupOpen fuel opts st gk toks = .ok out →
      altContainersOk out.1 = true) ∧
    (∀ opts st st2 b1 b2 finished cur toks out,
      altContainersOk.goList finished = true → altContainersOk.goList cur = true →
      groupAlts fuel opts st st2 b1 b2 finished cur toks = .ok out →
      altContainersOk.goList out.1 = true ∧ out.1 ≠ []) ∧
    (∀ opts finished cur toks out,
      altContainersOk.goList finished = true → altContainersOk.goList cur = true →
      topAlts fuel opts finished cur toks = .ok out →
      altContainersOk.goList out = true ∧ out ≠ []) := by
  intro fuel
  induction fuel with
  | zero =>
      refine ⟨?_, ?_, ?_, ?_⟩
      · intro _ _ _ _ _ _ _ h; exact Except.noConfusion h
      · intro _ _ _ _ _ h; exact Except.noConfusion h
      · intro _ _ _ _ _ _ _ _ _ _ _ h; exact Except.noConfusion h
      · intro _ _ _ _ _ _ _ h; exact Except.noConfusion h
  | succ f ih =>
      obtain ⟨ihA, ihB, ihC, ihD⟩ := ih
      have stepA : ∀ opts st tok rest elems out, altContainersOk.goList elems = true →
          walkOne (f + 1) opts st tok rest elems = .ok out →
          altContainersOk.goList out.1 = true := by
        intro opts st tok rest elems out he h
        obtain ⟨o1, o2⟩ := out
        cases tok with
        | character v =>
            cases hc : createCharacter v false with
            | error e => simp [walkOne, hc, bind, Except.bind] at h
            | ok n =>
                simp [walkOne, hc, bind, Except.bind] at h
                obtain ⟨h1, h2⟩ := h
                subst h1
                simp [goList_append, altContainersOk.goList, he,
                  ok_createCharacter v false n hc]
        | characterSet k val ng =>
            cases hc : parseCharacterSet opts k val ng with
            | error e => simp [walkOne, hc, bind, Except.bind] at h
            | ok n =>
                simp [walkOne, hc, bind, Except.bind] at h
                obtain ⟨h1, h2⟩ := h
                subst h1
                simp [goList_append, altContainersOk.goList, he,
                  ok_parseCharacterSet opts k val ng n hc]
        | quantifier k mn mx =>
            cases hg : elems.getLast? with
            | none => simp [walkOne, hg, bind, Except.bind] at h
            | some q =>
                cases hq : isNotQuantifiable q with
                | true => simp [walkOne, hg, hq, bind, Except.bind] at h
                | false =>
                    simp [walkOne, hg, hq, bind, Except.bind] at h
                    obtain ⟨h1, h2⟩ := h
                    subst h1
                    have hqok : altContainersOk q = true := by
                      have hm : q ∈ elems := List.mem_of_mem_getLast? hg
                      rw [goList_eq_all] at he
                      exact List.all_eq_true.mp he q hm
                    have hd : altContainersOk.goList elems.dropLast = true := by
                      rw [goList_eq_all] at he ⊢
                      refine List.all_eq_true.mpr ?_
                      intro x hx
                      exact List.all_eq_true.mp he x (List.dropLast_subset _ hx)
                    simp [goList_append, altContainersOk.goList, hd,
                      ok_createQuantifier, hqok]
        | groupOpen gk =>
            cases hp : parseGroupOpen f opts st gk rest with
            | error e => simp [walkOne, hp, bind, Except.bind] at h
            | ok r =>
                simp [walkOne, hp, bind, Except.bind] at h
                obtain ⟨h1, h2⟩ := h
                subst h1
                simp [goList_append, altContainersOk.goList, he, ihB opts st gk rest r hp]
        | alternator => simp [walkOne, bind, Except.bind] at h
        | groupClose => simp [walkOne, bind, Except.bind] at h
      have stepC : ∀ opts st st2 b1 b2 finished cur toks out,
          altContainersOk.goList finished = true → altContainersOk.goList cur = true →
          groupAlts (f + 1) opts st st2 b1 b2 finished cur toks = .ok out →
          altContainersOk.goList out.1 = true ∧ out.1 ≠ [] := by
        intro opts st st2 b1 b2 finished cur toks out hf hc h
        have hcont : ∀ (tok : Token) (rest : List Token),
            (do
              let r ← walkOne f opts st2 tok rest cur
              if (b1 || st.isInLookbehind) && !opts.skipLookbehindValidation then
                match r.1.getLast? with
                | some child =>
                    if lookbehindChildAllowed (b2 || st.isInNegLookbehind) child then
                      groupAlts f opts st st2 b1 b2 finished r.1 r.2
                    else
                      .error "Lookbehind includes a pattern not allowed by Oniguruma"
                | none => groupAlts f opts st st2 b1 b2 finished r.1 r.2
              else groupAlts f opts st st2 b1 b2 finished r.1 r.2) = .ok out →
            altContainersOk.goList out.1 = true ∧ out.1 ≠ [] := by
          intro tok rest h2
          cases hw : walkOne f opts st2 tok rest cur with
          | error e =>
              simp only [hw, bind, Except.bind] at h2
              exact Except.noConfusion h2
          | ok r =>
              simp only [hw, bind, Except.bind] at h2
              have hr : altContainersOk.goList r.1 = true :=
                ihA opts st2 tok rest cur r hc hw
              split at h2
              · split at h2
                · split at h2
                  · exact ihC opts st st2 b1 b2 finished _ _ _ hf hr h2
                  · exact Except.noConfusion h2
                · exact ihC opts st st2 b1 b2 finished _ _ _ hf hr h2
              · exact ihC opts st st2 b1 b2 finished _ _ _ hf hr h2
        cases toks with
        | nil => exact Except.noConfusion h
        | cons t rest =>
            cases t with
            | groupClose =>
                simp only [groupAlts] at h
                cases h
                refine ⟨?_, by simp⟩
                simp [goList_append, altContainersOk.goList, altContainersOk, hf, hc]
            | alternator =>
                simp only [groupAlts] at h
                exact ihC opts st st2 b1 b2 (finished ++ [Node.alternative cur]) [] rest out
                  (by simp [goList_append, altContainersOk.goList, altContainersOk, hf, hc])
                  rfl h
            | character v => exact hcont _ _ h
            | characterSet k val ng => exact hcont _ _ h
            | quantifier k mn mx => exact hcont _ _ h
            | groupOpen gk => exact hcont _ _ h
      have stepD : ∀ opts finished cur toks out,
          altContainersOk.goList finished = true → altContainersOk.goList cur = true →
          topAlts (f + 1) opts finished cur toks = .ok out →
          altContainersOk.goList out = true ∧ out ≠ [] := by
        intro opts finished cur toks out hf hc h
        have hcont : ∀ (tok : Token) (rest : List Token),
            (do
              let r ← walkOne f opts topState tok rest cur
              topAlts f opts finished r.1 r.2) = .ok out →
            altContainersOk.goList out = true ∧ out ≠ [] := by
          intro tok rest h2
          cases hw : walkOne f opts topState tok rest cur with
          | error e =>
              simp only [hw, bind, Except.bind] at h2
              exact Except.noConfusion h2
          | ok r =>
              simp only [hw, bind, Except.bind] at h2
              exact ihD opts finished _ _ _ hf (ihA opts topState tok rest cur r hc hw) h2
        cases toks with
        | nil =>
            simp only [topAlts] at h
            cases h
            refine ⟨?_, by simp⟩
            simp [goList_append, altContainersOk.goList, altContainersOk, hf, hc]
        | cons t rest =>
            cases t with
            | alternator =>
                simp only [topAlts] at h
                exact ihD opts (finished ++ [Node.alternative cur]) [] rest out
                  (by simp [goList_append, altContainersOk.goList, altContainersOk, hf, hc])
                  rfl h
            | character v => exact hcont _ _ h
            | characterSet k val ng => exact hcont _ _ h
            | quantifier k mn mx => exact hcont _ _ h
            | groupOpen gk => exact hcont _ _ h
            | groupClose => exact hcont _ _ h
      have stepB : ∀ opts st gk toks out,
          parseGroupOpen (f + 1) opts st gk toks = .ok out →
          altContainersOk out.1 = true := by
        intro opts st gk toks out h
        cases hb : createByGroupKind gk with
        | error e =>
            simp only [parseGroupOpen, hb, bind, Except.bind] at h
            exact Except.noConfusion h
        | ok node0 =>
            simp only [parseGroupOpen, hb, bind, Except.bind] at h
            split at h
            · exact Except.noConfusion h
            · split at h
              · exact Except.noConfusion h
              · rename_i r hg
                cases h
                obtain ⟨hok, hne⟩ := ihC opts st _ _ _ [] [] toks r rfl rfl hg
                exact ok_setAlternatives gk node0 hb r.1 hne hok
      exact ⟨stepA, stepB, stepC, stepD⟩

/-- C10: every alternative-container node (Pattern, Group, CapturingGroup,
LookaroundAssertion, AbsentFunction) produced by the factories starts with
one empty Alternative, and every AST returned by parse satisfies the
nonempty-alternatives invariant throughout. -/
theorem c10_alternative_containers_nonempty :
    altContainersOk createPattern = true ∧
    (∀ a : Bool, altContainersOk (createGroup a) = true) ∧
    (∀ b ng : Bool, altContainersOk (createLookaroundAssertion b ng) = true) ∧
    altContainersOk createAbsentFunction = true ∧
    (∀ (num : Nat) (nm : Option Str) (n : Node),
      createCapturingGroup num nm = .ok n → altContainersOk n = true) ∧
    (∀ (fuel : Nat) (opts : ParserOpts) (toks : List Token) (fl : Flags) (ast : Node),
      parse fuel opts toks fl = .ok ast → altContainersOk ast = true) := by
  refine ⟨rfl, ?_, ?_, rfl, ?_, ?_⟩
  · intro a; cases a <;> rfl
  · intro b ng; cases b <;> rfl
  · intro num nm n h
    unfold createCapturingGroup at h
    split at h
    · cases h; rfl
    · split at h
      · cases h; rfl
      · exact Except.noConfusion h
  · intro fuel opts toks fl ast h
    unfold parse at h
    cases ht : topAlts fuel opts [] [] toks with
    | error e => rw [ht] at h; exact Except.noConfusion h
    | ok alts =>
        rw [ht] at h
        cases h
        obtain ⟨hok, hne⟩ := (parseInvariant fuel).2.2.2 opts [] [] toks alts rfl rfl ht
        have hne2 : alts.isEmpty = false := by
          cases alts with
          | nil => exact absurd rfl hne
          | cons a t => rfl
        simp [altContainersOk, createRegex, createPattern, Node.setAlternatives,
          createFlags, hne2, hok]

/-- Witness for C10: the capturing-group factory output and a concrete
successful parse, both satisfying the invariant. -/
theorem c10_witness :
    createCapturingGroup 1 none = .ok (.capturingGroup 1 none [.alternative []]) ∧
    altContainersOk (.capturingGroup 1 none [.alternative []]) = true ∧
    parse 20 defaultOpts tokensA31 noFlags =
      .ok (.regexN
        (.patternN [.alternative [.quantifier .possessive 1 (some 3) (.character 97)]])
        (.flagsN noFlags)) ∧
    altContainersOk (.regexN
        (.patternN [.alternative [.quantifier .possessive 1 (some 3) (.character 97)]])
        (.flagsN noFlags)) = true :=
  ⟨rfl,
   c10_alternative_containers_nonempty.2.2.2.2.1 1 none _ rfl,
   rfl,
   c10_alternative_containers_nonempty.2.2.2.2.2 20 defaultOpts tokensA31 noFlags _ rfl⟩

/-- Witness for C9 at the name digit with no property map. -/
theorem c9_witness :
    PosixClassNames.contains (slug "digit".toList) = true ∧
    mapHas defaultOpts.unicodePropertyMap (slug "digit".toList) = false ∧
    parseCharacterSet defaultOpts .property (some "digit".toList) true =
      .ok (.characterSet .posix (some (slug "digit".toList)) (some true) none) :=
  ⟨by decide, by decide,
    c9_property_posix_fallback.1 defaultOpts "digit".toList true (by decide) (by decide)⟩

theorem nextIndex_zero (i : Nat) : nextIndex i 0 = i + 1 := by
  unfold nextIndex; omega

theorem nextIndex_negOne (i : Nat) : nextIndex i (-1) = i := by
  unfold nextIndex; omega

theorem nextIndex_spliceLen (i k : Nat) : nextIndex i ((k : Int) - 1) = i + k := by
  unfold nextIndex; omega

theorem traverseNode_doNothing (f : Nat) (vis : Visitor) (n : Node)
    (key : Option Nat) (r : NRes) (hact : vis n key = Action.doNothing)
    (h : traverseNode f vis n key = some r) :
    r.keyShift = 0 ∧ r.edit = CEdit.store := by
  cases f with
  | zero => exact Option.noConfusion h
  | succ f =>
      simp only [traverseNode, hact] at h
      cases hw : walkChildren f vis n with
      | none => rw [hw] at h; exact Option.noConfusion h
      | some k =>
          rw [hw] at h
          injection h with h2
          subst h2
          exact ⟨rfl, rfl⟩

theorem traverseNode_remove_spec (f : Nat) (vis : Visitor) (n : Node)
    (i : Nat) (r : NRes) (hact : vis n (some i) = Action.remove)
    (h : traverseNode f vis n (some i) = some r) :
    r.trace = [Event.enterAll n, Event.enterThis n, Event.exitAll n, Event.exitThis n] ∧
    r.keyShift = -1 ∧ r.edit = CEdit.erase := by
  cases f with
  | zero => exact Option.noConfusion h
  | succ f =>
      simp only [traverseNode, hact, Option.isSome] at h
      injection h with h2
      subst h2
      exact ⟨rfl, rfl, rfl⟩

theorem drop_eraseIdx_self (ys : List Node) (i : Nat) :
    (ys.eraseIdx i).drop i = ys.drop (i + 1) := by
  induction ys generalizing i with
  | nil => cases i <;> rfl
  | cons x t ih =>
      cases i with
      | zero => rfl
      | succ i => simpa [List.eraseIdx, List.drop] using ih i

/-- A loop over elements the visitor leaves alone visits each remaining
element, in order, at its own index. -/
theorem traverseArr_doNothing (f : Nat) (vis : Visitor) :
    ∀ (ys : List Node) (j : Nat) (res : ARes),
    (∀ (jj : Nat) (hjj : jj < ys.length), j ≤ jj → ∀ k,
      vis (ys.get ⟨jj, hjj⟩) k = Action.doNothing) →
    traverseArr f vis ys j = some res →
    res.visits = enumFrom j (ys.drop j) := by
  induction f with
  | zero => intro ys j res hv h; exact Option.noConfusion h
  | succ f ih =>
      intro ys j res hv h
      simp only [traverseArr] at h
      by_cases hj : j < ys.length
      · rw [dif_pos hj] at h
        cases hn : traverseNode f vis (ys.get ⟨j, hj⟩) (some j) with
        | none => rw [hn] at h; exact Option.noConfusion h
        | some r =>
            simp only [hn] at h
            obtain ⟨hks, hed⟩ :=
              traverseNode_doNothing f vis _ _ r (hv j hj (le_refl j) (some j)) hn
            rw [show applyEdit ys j r = ys.set j r.node by rw [applyEdit, hed]] at h
            rw [hks, nextIndex_zero] at h
            cases hrec : traverseArr f vis (ys.set j r.node) (j + 1) with
            | none => rw [hrec] at h; exact Option.noConfusion h
            | some rest =>
                rw [hrec] at h
                injection h with h2
                subst h2
                have ih2 : rest.visits = enumFrom (j + 1) ((ys.set j r.node).drop (j + 1)) := by
                  refine ih (ys.set j r.node) (j + 1) rest ?_ hrec
                  intro jj hjj hge k
                  have hjj2 : jj < ys.length := by simpa using hjj
                  have hne : j ≠ jj := by omega
                  have : (ys.set j r.node).get ⟨jj, hjj⟩ = ys.get ⟨jj, hjj2⟩ := by
                    simpa using List.getElem_set_ne hne hjj
                  rw [this]
                  exact hv jj hjj2 (by omega) k
                rw [List.drop_set_of_lt _ _ (Nat.lt_succ_self j)] at ih2
                rw [List.drop_eq_getElem_cons hj]
                simp only [enumFrom, ih2]
                rfl
      · rw [dif_neg hj] at h
        injection h with h2
        subst h2
        rw [List.drop_eq_nil_of_le (by omega)]
        rfl

/-- The loop of C1: walking from cursor j up to the removal index i, every
element is visited once at its own index, the element at i is visited and
erased, and the loop continues at index i over the shifted tail. -/
theorem traverseArr_remove_loop (vis : Visitor) : ∀ (f : Nat) (ys : List Node)
    (j i : Nat) (res : ARes) (hij : j ≤ i) (hi : i < ys.length),
    vis (ys.get ⟨i, hi⟩) (some i) = Action.remove →
    (∀ (jj : Nat) (hjj : jj < ys.length), j ≤ jj → jj ≠ i → ∀ k,
      vis (ys.get ⟨jj, hjj⟩) k = Action.doNothing) →
    traverseArr f vis ys j = some res →
    res.visits = enumFrom j ((ys.drop j).take (i - j)) ++
      (ys.get ⟨i, hi⟩, i) :: enumFrom i (ys.drop (i + 1)) := by
  intro f
  induction f with
  | zero => intro ys j i res hij hi hrm hv h; exact Option.noConfusion h
  | succ f ih =>
      intro ys j i res hij hi hrm hv h
      have hj : j < ys.length := by omega
      simp only [traverseArr] at h
      rw [dif_pos hj] at h
      rcases Nat.lt_or_ge j i with hlt | hge
      · -- below the removal index: the visitor does nothing here
        cases hn : traverseNode f vis (ys.get ⟨j, hj⟩) (some j) with
        | none => rw [hn] at h; exact Option.noConfusion h
        | some r =>
            simp only [hn] at h
            obtain ⟨hks, hed⟩ :=
              traverseNode_doNothing f vis _ _ r
                (hv j hj (le_refl j) (by omega) (some j)) hn
            rw [show applyEdit ys j r = ys.set j r.node by rw [applyEdit, hed]] at h
            rw [hks, nextIndex_zero] at h
            cases hrec : traverseArr f vis (ys.set j r.node) (j + 1) with
            | none => rw [hrec] at h; exact Option.noConfusion h
            | some rest =>
                rw [hrec] at h
                injection h with h2
                subst h2
                have hi2 : i < (ys.set j r.node).length := by simpa using hi
                have hgeti : (ys.set j r.node).get ⟨i, hi2⟩ = ys.get ⟨i, hi⟩ := by
                  simpa using List.getElem_set_ne (by omega : j ≠ i) hi2
                have ih2 := ih (ys.set j r.node) (j + 1) i rest (by omega) hi2
                  (by rw [hgeti]; exact hrm)
                  (by
                    intro jj hjj hge2 hne k
                    have hjj2 : jj < ys.length := by simpa using hjj
                    have : (ys.set j r.node).get ⟨jj, hjj⟩ = ys.get ⟨jj, hjj2⟩ := by
                      simpa using List.getElem_set_ne (by omega : j ≠ jj) hjj
                    rw [this]
                    exact hv jj hjj2 (by omega) hne k)
                  hrec
                rw [hgeti] at ih2
                rw [List.drop_set_of_lt _ _ (by omega : j < j + 1)] at ih2
                rw [List.drop_set_of_lt _ _ (by omega : j < i + 1)] at ih2
                rw [List.drop_eq_getElem_cons hj]
                have hsub : i - j = (i - (j + 1)) + 1 := by omega
                rw [hsub]
                simp only [List.take_succ_cons, enumFrom, ih2]
                rfl
      · -- at the removal index
        have hji : j = i := by omega
        subst hji
        cases hn : traverseNode f vis (ys.get ⟨j, hj⟩) (some j) with
        | none => rw [hn] at h; exact Option.noConfusion h
        | some r =>
            simp only [hn] at h
            obtain ⟨htr, hks, hed⟩ :=
              traverseNode_remove_spec f vis _ j r hrm hn
            rw [show applyEdit ys j r = ys.eraseIdx j by rw [applyEdit, hed]] at h
            rw [hks, nextIndex_negOne] at h
            cases hrec : traverseArr f vis (ys.eraseIdx j) j with
            | none => rw [hrec] at h; exact Option.noConfusion h
            | some rest =>
                rw [hrec] at h
                injection h with h2
                subst h2
                have hrest : rest.visits = enumFrom j ((ys.eraseIdx j).drop j) := by
                  refine traverseArr_doNothing f vis (ys.eraseIdx j) j rest ?_ hrec
                  intro jj hjj hge2 k
                  have hjj2 : jj + 1 < ys.length := by
                    rw [List.length_eraseIdx] at hjj
                    simp [hj] at hjj
                    omega
                  have : (ys.eraseIdx j).get ⟨jj, hjj⟩ = ys.get ⟨jj + 1, hjj2⟩ := by
                    have := List.getElem_eraseIdx ys j jj hjj
                    rw [dif_neg (by omega : ¬ jj < j)] at this
                    simpa using this
                  rw [this]
                  exact hv (jj + 1) hjj2 (by omega) (by omega) k
                rw [drop_eraseIdx_self] at hrest
                simp [hrest, enumFrom, Nat.sub_self]

/-- C1: when the visitor removes exactly the node at index i of the array
being traversed (and does nothing elsewhere), the loop visits the nodes
before i at their own indices, visits the removed node at i, then visits
the former i+1 next — at index i — and every following sibling exactly once
at its shifted index; the removed node's visit fires only its own four
callbacks, so its children are never walked. -/
theorem c1_remove_adjusts_cursor (fuel f2 : Nat) (vis : Visitor)
    (xs : List Node) (i : Nat) (res : ARes) (res2 : NRes)
    (h1 : i < xs.length)
    (hrm : vis (xs.get ⟨i, h1⟩) (some i) = Action.remove)
    (hothers : ∀ (j : Nat) (hj : j < xs.length), j ≠ i → ∀ k,
      vis (xs.get ⟨j, hj⟩) k = Action.doNothing)
    (hrun : traverseArr fuel vis xs 0 = some res)
    (hrun2 : traverseNode f2 vis (xs.get ⟨i, h1⟩) (some i) = some res2) :
    res.visits = enumFrom 0 (xs.take i) ++
      (xs.get ⟨i, h1⟩, i) :: enumFrom i (xs.drop (i + 1)) ∧
    res2.trace = [Event.enterAll (xs.get ⟨i, h1⟩), Event.enterThis (xs.get ⟨i, h1⟩),
      Event.exitAll (xs.get ⟨i, h1⟩), Event.exitThis (xs.get ⟨i, h1⟩)] := by
  constructor
  · have := traverseArr_remove_loop vis fuel xs 0 i res (Nat.zero_le i) h1 hrm
      (fun jj hjj _ hne k => hothers jj hjj hne k) hrun
    simpa [List.take_of_length_le, List.drop_zero] using this
  · exact (traverseNode_remove_spec f2 vis _ i res2 hrm hrun2).1

/-- C2 counterexample: on a single Character node with all four callbacks
registered, the engine fires wildcard-enter, type-enter, wildcard-exit,
type-exit — not the claimed ... type-exit, wildcard-exit order. -/
theorem c2_counterexample :
    traverseNode 2 visNone (Node.character 97) none =
      some ⟨[Event.enterAll (.character 97), Event.enterThis (.character 97),
             Event.exitAll (.character 97), Event.exitThis (.character 97)],
            .character 97, 0, .store⟩ ∧
    ([Event.enterAll (Node.character 97), Event.enterThis (.character 97),
      Event.exitAll (.character 97), Event.exitThis (.character 97)] ≠
     [Event.enterAll (Node.character 97), Event.enterThis (.character 97),
      Event.exitThis (.character 97), Event.exitAll (.character 97)]) :=
  ⟨rfl, by simp⟩

/-- C2 (amended): for every visited node the trace is wildcard-enter,
type-enter, a middle segment, wildcard-exit, type-exit — and when the
visitor does nothing the middle segment is exactly the recursive walk of
the children. -/
theorem c2_callback_order (f : Nat) (vis : Visitor) (n : Node)
    (key : Option Nat) (res : NRes)
    (h : traverseNode (f + 1) vis n key = some res) :
    ∃ mid, res.trace = Event.enterAll n :: Event.enterThis n ::
        (mid ++ [Event.exitAll n, Event.exitThis n]) ∧
      (vis n key = Action.doNothing →
        ∃ nd, walkChildren f vis n = some (mid, nd)) := by
  cases hact : vis n key with
  | doNothing =>
      simp only [traverseNode, hact] at h
      cases hw : walkChildren f vis n with
      | none => rw [hw] at h; exact Option.noConfusion h
      | some k =>
          obtain ⟨kt, knd⟩ := k
          rw [hw] at h
          injection h with h2
          subst h2
          exact ⟨kt, rfl, fun _ => ⟨knd, rfl⟩⟩
  | skip =>
      simp only [traverseNode, hact] at h
      injection h with h2
      subst h2
      exact ⟨[], rfl, fun habs => absurd habs (by simp)⟩
  | remove =>
      cases key with
      | none => simp [traverseNode, hact] at h
      | some i =>
          simp only [traverseNode, hact, Option.isSome] at h
          injection h with h2
          subst h2
          exact ⟨[], rfl, fun habs => absurd habs (by simp)⟩
  | replaceWith m =>
      simp only [traverseNode, hact] at h
      cases hw : walkChildren f vis m with
      | none => rw [hw] at h; exact Option.noConfusion h
      | some k =>
          rw [hw] at h
          injection h with h2
          subst h2
          exact ⟨k.1, rfl, fun habs => absurd habs (by simp)⟩
  | replaceWithMultiple ns tr =>
      cases key with
      | none => simp [traverseNode, hact] at h
      | some i =>
          cases tr with
          | false =>
              simp only [traverseNode, hact, Option.isSome] at h
              injection h with h2
              subst h2
              exact ⟨[], rfl, fun habs => absurd habs (by simp)⟩
          | true =>
              simp only [traverseNode, hact, Option.isSome] at h
              cases hw : walkNodes f vis ns with
              | none => rw [hw] at h; exact Option.noConfusion h
              | some w =>
                  rw [hw] at h
                  injection h with h2
                  subst h2
                  exact ⟨w.1, rfl, fun habs => absurd habs (by simp)⟩

/-- Witness for the amended C2 on a concrete Character node. -/
theorem c2_witness :
    traverseNode 2 visNone (Node.character 97) none =
      some ⟨[Event.enterAll (.character 97), Event.enterThis (.character 97),
             Event.exitAll (.character 97), Event.exitThis (.character 97)],
            .character 97, 0, .store⟩ ∧
    ∃ mid,
      [Event.enterAll (Node.character 97), Event.enterThis (.character 97),
       Event.exitAll (.character 97), Event.exitThis (.character 97)] =
        Event.enterAll (Node.character 97) :: Event.enterThis (Node.character 97) ::
          (mid ++ [Event.exitAll (Node.character 97), Event.exitThis (Node.character 97)]) ∧
      (visNone (Node.character 97) none = Action.doNothing →
        ∃ nd, walkChildren 1 visNone (Node.character 97) = some (mid, nd)) :=
  ⟨rfl, c2_callback_order 1 visNone (Node.character 97) none _ rfl⟩

/-- C3 counterexample: a plain replaceWith with no options makes the
engine swap the node in the container and then walk the replacement's
children — the trace contains the enter events of the new node's
grandchild character b, refuting the claim that the traverser descends
into the replacement only on per-call opt-in. -/
theorem c3_counterexample :
    traverseArr 9 visC3 [Node.character 97] 0 =
      some ⟨[(Node.character 97, 0)],
            [Event.enterAll (.character 97), Event.enterThis (.character 97),
             Event.enterAll (.alternative [.character 98]),
             Event.enterThis (.alternative [.character 98]),
             Event.enterAll (.character 98), Event.enterThis (.character 98),
             Event.exitAll (.character 98), Event.exitThis (.character 98),
             Event.exitAll (.alternative [.character 98]),
             Event.exitThis (.alternative [.character 98]),
             Event.exitAll (.character 97), Event.exitThis (.character 97)],
            [nC3g]⟩ ∧
    Event.enterThis (Node.character 98) ∈
      [Event.enterAll (Node.character 97), Event.enterThis (.character 97),
       Event.enterAll (.alternative [.character 98]),
       Event.enterThis (.alternative [.character 98]),
       Event.enterAll (.character 98), Event.enterThis (.character 98),
       Event.exitAll (.character 98), Event.exitThis (.character 98),
       Event.exitAll (.alternative [.character 98]),
       Event.exitThis (.alternative [.character 98]),
       Event.exitAll (.character 97), Event.exitThis (.character 97)] :=
  ⟨rfl, by simp⟩

/-- C3 (amended): replaceWith(newNode) swaps the current node for newNode
in its slot or container and the traverser then walks newNode's children
unconditionally (descent is the default; there is no per-call opt-in). -/
theorem c3_replace_descends (f : Nat) (vis : Visitor) (n m : Node)
    (key : Option Nat) (res : NRes)
    (hact : vis n key = Action.replaceWith m)
    (h : traverseNode (f + 1) vis n key = some res) :
    ∃ kt nd, walkChildren f vis m = some (kt, nd) ∧ res.node = nd ∧
      res.edit = CEdit.store ∧ res.keyShift = 0 ∧
      res.trace = [Event.enterAll n, Event.enterThis n] ++ kt ++
        [Event.exitAll n, Event.exitThis n] := by
  simp only [traverseNode, hact] at h
  cases hw : walkChildren f vis m with
  | none => rw [hw] at h; exact Option.noConfusion h
  | some k =>
      rw [hw] at h
      injection h with h2
      subst h2
      exact ⟨k.1, k.2, rfl, rfl, rfl, rfl, rfl⟩

/-- Witness for the amended C3 at the concrete replacement scenario. -/
theorem c3_witness :
    visC3 (Node.character 97) (some 0) = Action.replaceWith nC3g ∧
    ∃ kt nd, walkChildren 7 visC3 nC3g = some (kt, nd) ∧
      ((traverseNode 8 visC3 (Node.character 97) (some 0)).getD
        ⟨[], .character 0, 0, .store⟩).node = nd ∧
      ((traverseNode 8 visC3 (Node.character 97) (some 0)).getD
        ⟨[], .character 0, 0, .store⟩).edit = CEdit.store ∧
      ((traverseNode 8 visC3 (Node.character 97) (some 0)).getD
        ⟨[], .character 0, 0, .store⟩).keyShift = 0 ∧
      ((traverseNode 8 visC3 (Node.character 97) (some 0)).getD
        ⟨[], .character 0, 0, .store⟩).trace =
        [Event.enterAll (.character 97), Event.enterThis (.character 97)] ++ kt ++
        [Event.exitAll (.character 97), Event.exitThis (.character 97)] :=
  ⟨rfl, c3_replace_descends 7 visC3 (Node.character 97) nC3g (some 0) _ rfl rfl⟩

/-- Witness for C1 at the concrete removal scenario. -/
theorem c1_witness :
    (1 : Nat) < xsC1.length ∧
    resC1.visits = enumFrom 0 (xsC1.take 1) ++
      (xsC1.get ⟨1, by decide⟩, 1) :: enumFrom 1 (xsC1.drop 2) ∧
    resC1n.trace = [Event.enterAll nC1g, Event.enterThis nC1g,
      Event.exitAll nC1g, Event.exitThis nC1g] := by
  have h := c1_remove_adjusts_cursor 9 9 visC1 xsC1 1 resC1 resC1n (by decide) rfl
    (by
      intro j hj hne k
      have hj3 : j < 3 := by simpa [xsC1] using hj
      interval_cases j
      · rfl
      · exact absurd rfl hne
      · rfl)
    rfl rfl
  exact ⟨by decide, h.1, h.2⟩

/-! C4: replaceWithMultiple (spec-modelled). -/

theorem walkNodes_length (vis : Visitor) : ∀ (f : Nat) (ns : List Node)
    (w : List Event × List Node),
    (∀ m ∈ ns, ∀ k, vis m k = Action.doNothing) →
    walkNodes f vis ns = some w → w.2.length = ns.length := by
  intro f
  induction f with
  | zero => intro ns w hv h; exact Option.noConfusion h
  | succ f ih =>
      intro ns w hv h
      cases ns with
      | nil =>
          simp only [walkNodes] at h
          injection h with h2
          subst h2
          rfl
      | cons m rest =>
          simp only [walkNodes] at h
          cases hn : traverseNode f vis m none with
          | none => rw [hn] at h; exact Option.noConfusion h
          | some r =>
              simp only [hn] at h
              obtain ⟨hks, hed⟩ :=
                traverseNode_doNothing f vis m none r (hv m (by simp) none) hn
              cases hrec : walkNodes f vis rest with
              | none => rw [hrec] at h; exact Option.noConfusion h
              | some tail =>
                  rw [hrec] at h
                  injection h with h2
                  subst h2
                  have := ih rest tail (fun m2 hm2 k => hv m2 (by simp [hm2]) k) hrec
                  simp [hed, this]

/-- The visit of a node whose enter callback calls replaceWithMultiple:
the cursor shift is the inserted count minus one and the container edit
splices in the (walked, when traverse is set) inserted nodes, preserving
their count when the visitor leaves them alone. -/
theorem traverseNode_rwm_spec (f : Nat) (vis : Visitor) (n : Node) (i : Nat)
    (ns : List Node) (tr : Bool) (r : NRes)
    (hact : vis n (some i) = Action.replaceWithMultiple ns tr)
    (hins : ∀ m ∈ ns, ∀ k, vis m k = Action.doNothing)
    (h : traverseNode f vis n (some i) = some r) :
    r.keyShift = (ns.length : Int) - 1 ∧
    ∃ ns2, r.edit = CEdit.splice ns2 ∧ ns2.length = ns.length ∧
      (tr = false → ns2 = ns) := by
  cases f with
  | zero => exact Option.noConfusion h
  | succ f =>
      cases tr with
      | false =>
          simp only [traverseNode, hact, Option.isSome] at h
          injection h with h2
          subst h2
          exact ⟨rfl, ns, rfl, rfl, fun _ => rfl⟩
      | true =>
          simp only [traverseNode, hact, Option.isSome] at h
          cases hw : walkNodes f vis ns with
          | none => rw [hw] at h; exact Option.noConfusion h
          | some w =>
              rw [hw] at h
              injection h with h2
              subst h2
              exact ⟨rfl, w.2, rfl, walkNodes_length vis f ns w hins hw,
                fun habs => Bool.noConfusion habs⟩

/-- With traverse set, the visit's trace brackets the full walk of each
inserted node between the replaced node's own enter and exit callbacks. -/
theorem traverseNode_rwm_trace (f : Nat) (vis : Visitor) (n : Node) (i : Nat)
    (ns : List Node) (r : NRes)
    (hact : vis n (some i) = Action.replaceWithMultiple ns true)
    (h : traverseNode (f + 1) vis n (some i) = some r) :
    ∃ w, walkNodes f vis ns = some w ∧ r.edit = CEdit.splice w.2 ∧
      r.trace = [Event.enterAll n, Event.enterThis n] ++ w.1 ++
        [Event.exitAll n, Event.exitThis n] := by
  simp only [traverseNode, hact, Option.isSome] at h
  cases hw : walkNodes f vis ns with
  | none => rw [hw] at h; exact Option.noConfusion h
  | some w =>
      rw [hw] at h
      injection h with h2
      subst h2
      exact ⟨w, rfl, rfl, rfl⟩

/-- With traverse unset, the inserted nodes are not walked: the visit's
trace is just the replaced node's own four callbacks. -/
theorem traverseNode_rwm_notrace (f : Nat) (vis : Visitor) (n : Node) (i : Nat)
    (ns : List Node) (r : NRes)
    (hact : vis n (some i) = Action.replaceWithMultiple ns false)
    (h : traverseNode (f + 1) vis n (some i) = some r) :
    r.trace = [Event.enterAll n, Event.enterThis n,
      Event.exitAll n, Event.exitThis n] ∧ r.edit = CEdit.splice ns := by
  simp only [traverseNode, hact, Option.isSome] at h
  injection h with h2
  subst h2
  exact ⟨rfl, rfl⟩

theorem traverseArr_doNothing_mem (f : Nat) (vis : Visitor) (ys : List Node)
    (j : Nat) (res : ARes)
    (hv : ∀ m ∈ ys.drop j, ∀ k, vis m k = Action.doNothing)
    (h : traverseArr f vis ys j = some res) :
    res.visits = enumFrom j (ys.drop j) := by
  refine traverseArr_doNothing f vis ys j res ?_ h
  intro jj hjj hge k
  have hlt : jj - j < (ys.drop j).length := by simp; omega
  have hidx : (ys.drop j).get ⟨jj - j, hlt⟩ = ys.get ⟨jj, hjj⟩ := by
    simp only [List.get_eq_getElem, List.getElem_drop]
    have heq : j + (jj - j) = jj := by omega
    simp [heq]
  rw [← hidx]
  exact hv _ (List.get_mem _ _ _) k

/-- The loop of C4: walking from cursor j up to the splice index i, every
element is visited once at its own index, the element at i is visited and
replaced by the inserted run, and the loop continues past the run at index
i + k over the original tail. -/
theorem traverseArr_rwm_loop (vis : Visitor) (ns : List Node) (tr : Bool) :
    ∀ (f : Nat) (ys : List Node) (j i : Nat) (res : ARes) (hij : j ≤ i)
    (hi : i < ys.length),
    vis (ys.get ⟨i, hi⟩) (some i) = Action.replaceWithMultiple ns tr →
    (∀ m ∈ ns, ∀ k, vis m k = Action.doNothing) →
    (∀ (jj : Nat) (hjj : jj < ys.length), j ≤ jj → jj ≠ i → ∀ k,
      vis (ys.get ⟨jj, hjj⟩) k = Action.doNothing) →
    traverseArr f vis ys j = some res →
    res.visits = enumFrom j ((ys.drop j).take (i - j)) ++
      (ys.get ⟨i, hi⟩, i) :: enumFrom (i + ns.length) (ys.drop (i + 1)) := by
  intro f
  induction f with
  | zero => intro ys j i res hij hi hact hins hv h; exact Option.noConfusion h
  | succ f ih =>
      intro ys j i res hij hi hact hins hv h
      have hj : j < ys.length := by omega
      simp only [traverseArr] at h
      rw [dif_pos hj] at h
      rcases Nat.lt_or_ge j i with hlt | hge
      · cases hn : traverseNode f vis (ys.get ⟨j, hj⟩) (some j) with
        | none => rw [hn] at h; exact Option.noConfusion h
        | some r =>
            simp only [hn] at h
            obtain ⟨hks, hed⟩ :=
              traverseNode_doNothing f vis _ _ r
                (hv j hj (le_refl j) (by omega) (some j)) hn
            rw [show applyEdit ys j r = ys.set j r.node by rw [applyEdit, hed]] at h
            rw [hks, nextIndex_zero] at h
            cases hrec : traverseArr f vis (ys.set j r.node) (j + 1) with
            | none => rw [hrec] at h; exact Option.noConfusion h
            | some rest =>
                rw [hrec] at h
                injection h with h2
                subst h2
                have hi2 : i < (ys.set j r.node).length := by simpa using hi
                have hgeti : (ys.set j r.node).get ⟨i, hi2⟩ = ys.get ⟨i, hi⟩ := by
                  simpa using List.getElem_set_ne (by omega : j ≠ i) hi2
                have ih2 := ih (ys.set j r.node) (j + 1) i rest (by omega) hi2
                  (by rw [hgeti]; exact hact) hins
                  (by
                    intro jj hjj hge2 hne k
                    have hjj2 : jj < ys.length := by simpa using hjj
                    have : (ys.set j r.node).get ⟨jj, hjj⟩ = ys.get ⟨jj, hjj2⟩ := by
                      simpa using List.getElem_set_ne (by omega : j ≠ jj) hjj
                    rw [this]
                    exact hv jj hjj2 (by omega) hne k)
                  hrec
                rw [hgeti] at ih2
                rw [List.drop_set_of_lt _ _ (by omega : j < j + 1)] at ih2
                rw [List.drop_set_of_lt _ _ (by omega : j < i + 1)] at ih2
                rw [List.drop_eq_getElem_cons hj]
                have hsub : i - j = (i - (j + 1)) + 1 := by omega
                rw [hsub]
                simp only [List.take_succ_cons, enumFrom, ih2]
                rfl
      · have hji : j = i := by omega
        subst hji
        cases hn : traverseNode f vis (ys.get ⟨j, hj⟩) (some j) with
        | none => rw [hn] at h; exact Option.noConfusion h
        | some r =>
            simp only [hn] at h
            obtain ⟨hks, ns2, hed, hlen2, _⟩ :=
              traverseNode_rwm_spec f vis _ j ns tr r hact hins hn
            rw [show applyEdit ys j r = ys.take j ++ ns2 ++ ys.drop (j + 1) by
              rw [applyEdit, hed]] at h
            rw [hks, nextIndex_spliceLen] at h
            cases hrec : traverseArr f vis (ys.take j ++ ns2 ++ ys.drop (j + 1))
                (j + ns.length) with
            | none => rw [hrec] at h; exact Option.noConfusion h
            | some rest =>
                rw [hrec] at h
                injection h with h2
                subst h2
                have htl : (ys.take j ++ ns2).length = j + ns.length := by
                  simp [List.length_take]
                  omega
                have harr : (ys.take j ++ ns2 ++ ys.drop (j + 1)).drop (j + ns.length) =
                    ys.drop (j + 1) := by
                  have := List.drop_left (ys.take j ++ ns2) (ys.drop (j + 1))
                  rwa [htl] at this
                have hmem : ∀ m ∈ ys.drop (j + 1), ∀ k, vis m k = Action.doNothing := by
                  intro m hm k
                  obtain ⟨idx, hidx⟩ := List.mem_iff_get.mp hm
                  have hlt2 : j + 1 + idx.1 < ys.length := by
                    have := idx.2
                    simp at this
                    omega
                  have hgd : (ys.drop (j + 1)).get idx = ys.get ⟨j + 1 + idx.1, hlt2⟩ := by
                    simp only [List.get_eq_getElem, List.getElem_drop]
                  rw [← hidx, hgd]
                  exact hv (j + 1 + idx.1) hlt2 (by omega) (by omega) k
                have hrest : rest.visits =
                    enumFrom (j + ns.length) (ys.drop (j + 1)) := by
                  have := traverseArr_doNothing_mem f vis
                    (ys.take j ++ ns2 ++ ys.drop (j + 1)) (j + ns.length) rest
                    (by rw [harr]; exact hmem) hrec
                  rwa [harr] at this
                simp [hrest, enumFrom, Nat.sub_self]

/-- C4 (spec-modelled replaceWithMultiple): when the visitor replaces the
node at index i with k nodes and touches nothing else, the loop visits the
earlier siblings at their indices, visits the replaced node once, then
continues at index i + k so the former i+1 is the next sibling visited and
every surrounding sibling is visited exactly once; with traverse unset the
inserted nodes are not walked, and with traverse set each inserted node is
walked with the active visitor, inside the replaced node's visit, before
the cursor moves on. -/
theorem c4_replace_with_multiple_cursor (fuel f2 : Nat) (vis : Visitor)
    (xs ns : List Node) (tr : Bool) (i : Nat) (res : ARes) (res2 : NRes)
    (h1 : i < xs.length)
    (hact : vis (xs.get ⟨i, h1⟩) (some i) = Action.replaceWithMultiple ns tr)
    (hins : ∀ m ∈ ns, ∀ k, vis m k = Action.doNothing)
    (hothers : ∀ (j : Nat) (hj : j < xs.length), j ≠ i → ∀ k,
      vis (xs.get ⟨j, hj⟩) k = Action.doNothing)
    (hrun : traverseArr fuel vis xs 0 = some res)
    (hrun2 : traverseNode (f2 + 1) vis (xs.get ⟨i, h1⟩) (some i) = some res2) :
    res.visits = enumFrom 0 (xs.take i) ++
      (xs.get ⟨i, h1⟩, i) :: enumFrom (i + ns.length) (xs.drop (i + 1)) ∧
    (tr = false → res2.trace = [Event.enterAll (xs.get ⟨i, h1⟩),
      Event.enterThis (xs.get ⟨i, h1⟩), Event.exitAll (xs.get ⟨i, h1⟩),
      Event.exitThis (xs.get ⟨i, h1⟩)] ∧ res2.edit = CEdit.splice ns) ∧
    (tr = true → ∃ w, walkNodes f2 vis ns = some w ∧
      res2.edit = CEdit.splice w.2 ∧
      res2.trace = [Event.enterAll (xs.get ⟨i, h1⟩), Event.enterThis (xs.get ⟨i, h1⟩)] ++
        w.1 ++ [Event.exitAll (xs.get ⟨i, h1⟩), Event.exitThis (xs.get ⟨i, h1⟩)]) := by
  refine ⟨?_, ?_, ?_⟩
  · have := traverseArr_rwm_loop vis ns tr fuel xs 0 i res (Nat.zero_le i) h1 hact hins
      (fun jj hjj _ hne k => hothers jj hjj hne k) hrun
    simpa using this
  · intro htr
    subst htr
    exact traverseNode_rwm_notrace f2 vis _ i ns res2 hact hrun2
  · intro htr
    subst htr
    exact traverseNode_rwm_trace f2 vis _ i ns res2 hact hrun2

/-- Witness for C4 at the concrete splice scenario. -/
theorem c4_witness :
    (1 : Nat) < xsC4.length ∧
    resC4.visits = enumFrom 0 (xsC4.take 1) ++
      (xsC4.get ⟨1, by decide⟩, 1) :: enumFrom 3 (xsC4.drop 2) ∧
    ∃ w, walkNodes 8 visC4 [.character 7, .character 8] = some w ∧
      resC4n.edit = CEdit.splice w.2 ∧
      resC4n.trace = [Event.enterAll (.character 99), Event.enterThis (.character 99)] ++
        w.1 ++ [Event.exitAll (.character 99), Event.exitThis (.character 99)] := by
  have h := c4_replace_with_multiple_cursor 9 8 visC4 xsC4
    [.character 7, .character 8] true 1 resC4 resC4n (by decide) rfl
    (by
      intro m hm k
      simp [List.mem_cons] at hm
      rcases hm with rfl | rfl
      · rfl
      · rfl)
    (by
      intro j hj hne k
      have hj3 : j < 3 := by simpa [xsC4] using hj
      interval_cases j
      · rfl
      · exact absurd rfl hne
      · rfl)
    rfl rfl
  exact ⟨by decide, h.1, h.2.2 rfl⟩

end Onig
